import Mathlib

/-!
Verification of the PyLig4 Connect-Four repository (Board.py, Piece.py, main.py).

Python values that can occupy a board cell are either `None` (empty) or a
string token, so we model them as `Option String`.  The grid is a list of
rows, each row a list of cells, exactly as `self.board` is a list of lists.
All definitions are shallow embeddings of the corresponding Python code.
-/

namespace PyLig4

/-- A Python value stored in a board cell: `None` or a token string. -/
abbrev PyVal := Option String

/-- `self.board`: a list of rows, each row a list of cells. -/
abbrev Grid := List (List PyVal)

/-- A cell style record, `{'top': str, 'mid': str, 'bottom': str}`. -/
structure CellStyle where
  top : String
  mid : String
  bottom : String
deriving DecidableEq, Repr

/-- The `Board` object state: `self.rows`, `self.columns`, `self.color`,
`self._parts` (the looked-up cell style) and `self.board`. -/
structure Board where
  color : String
  rows : Nat
  columns : Nat
  parts : CellStyle
  board : Grid
deriving DecidableEq, Repr

/-- `Board.__init__`: stores the dimensions and builds
`[[None for _ in range(columns)] for _ in range(rows)]`.
The style lookup `_STYLE_MAP[style]` is external configuration; the already
looked-up parts record is passed in directly. -/
def Board.init (color : String) (rows columns : Nat) (parts : CellStyle) : Board :=
  { color := color, rows := rows, columns := columns, parts := parts,
    board := List.replicate rows (List.replicate columns none) }

/-- Reading `g[r][c]` (total version: out-of-range reads default to `none`;
all reads performed by the Python code are in range on well-formed boards). -/
def getCellG (g : Grid) (r c : Nat) : PyVal := (g.getD r []).getD c none

/-- Reading `self.board[r][c]` with natural-number indices. -/
def Board.getCell (b : Board) (r c : Nat) : PyVal := getCellG b.board r c

/-- Reading `self.board[r][c]` with integer indices (the win scan computes
indices as Python ints; they are nonnegative whenever actually evaluated). -/
def Board.getCellI (b : Board) (r c : Int) : PyVal := getCellG b.board r.toNat c.toNat

/-- Writing `g[r][c] = v`. -/
def setCellG (g : Grid) (r c : Nat) (v : PyVal) : Grid :=
  g.set r ((g.getD r []).set c v)

/-- The scan `for r in range(self.rows - 1, -1, -1): ...` of `drop_piece`,
taken over an explicit list of row indices (highest first). -/
def drop_loop (g : Grid) (c : Nat) (piece : PyVal) : List Nat → Grid × Bool
  | [] => (g, false)
  | r :: rs =>
      if getCellG g r c = none then (setCellG g r c piece, true)
      else drop_loop g c piece rs

/-- `Board.drop_piece(column, piece)`: returns the updated board together with
the boolean result.  The column index is a Python int (may be negative). -/
def Board.drop_piece (b : Board) (column : Int) (piece : PyVal) : Board × Bool :=
  if 0 ≤ column ∧ column < (b.columns : Int) then
    let res := drop_loop b.board column.toNat piece ((List.range b.rows).reverse)
    ({ b with board := res.1 }, res.2)
  else
    (b, false)

/-- The direction list of `check_for_win`:
right, down, down-right, down-left as `(row_change, col_change)`. -/
def directions : List (Int × Int) := [(0, 1), (1, 0), (1, 1), (1, -1)]

/-- `Board.check_for_win(piece)`: row-major scan; for each cell equal to
`piece`, try each direction whose end cell `(r + 3*dr, c + 3*dc)` is in
bounds and test all four cells of the line. -/
def Board.check_for_win (b : Board) (piece : PyVal) : Bool :=
  (List.range b.rows).any fun r =>
    (List.range b.columns).any fun c =>
      decide (b.getCell r c = piece) &&
        (directions.any fun d =>
          (decide (0 ≤ (r : Int) + 3 * d.1) && decide ((r : Int) + 3 * d.1 < (b.rows : Int)) &&
           decide (0 ≤ (c : Int) + 3 * d.2) && decide ((c : Int) + 3 * d.2 < (b.columns : Int))) &&
          (List.range 4).all fun i =>
            decide (b.getCellI ((r : Int) + (i : Int) * d.1) ((c : Int) + (i : Int) * d.2) = piece))

/-- `Board.reset_board()`: replaces the grid with a fresh all-`None` grid of
the same dimensions. -/
def Board.reset_board (b : Board) : Board :=
  { b with board := List.replicate b.rows (List.replicate b.columns none) }

/-- Well-formedness of a board as produced by the constructor: the grid
really has `rows` rows each of length `columns`. -/
def wf (b : Board) : Prop :=
  b.board.length = b.rows ∧ ∀ row ∈ b.board, row.length = b.columns

/-! ### Basic list-access lemmas -/

lemma getD_replicate {α : Type} (a d : α) :
    ∀ (n i : Nat), (List.replicate n a).getD i d = if i < n then a else d := by
  intro n
  induction n with
  | zero => intro i; simp
  | succ n ih =>
    intro i
    cases i with
    | zero => simp [List.replicate_succ]
    | succ i => simpa [List.replicate_succ, Nat.succ_lt_succ_iff] using ih i

lemma getD_set_ne {α : Type} (d a : α) :
    ∀ (l : List α) (i j : Nat), i ≠ j → (l.set i a).getD j d = l.getD j d := by
  intro l
  induction l with
  | nil => intro i j _; rfl
  | cons x xs ih =>
    intro i j hij
    cases i with
    | zero =>
      cases j with
      | zero => exact absurd rfl hij
      | succ j => simp [List.set]
    | succ i =>
      cases j with
      | zero => simp [List.set]
      | succ j => simpa [List.set] using ih i j (by omega)

lemma getD_set_eq {α : Type} (d a : α) :
    ∀ (l : List α) (i : Nat), i < l.length → (l.set i a).getD i d = a := by
  intro l
  induction l with
  | nil => intro i h; simp at h
  | cons x xs ih =>
    intro i h
    cases i with
    | zero => simp [List.set]
    | succ i => simpa [List.set] using ih i (by simpa using h)

lemma set_of_length_le {α : Type} (a : α) :
    ∀ (l : List α) (i : Nat), l.length ≤ i → l.set i a = l := by
  intro l
  induction l with
  | nil => intro i _; rfl
  | cons x xs ih =>
    intro i h
    cases i with
    | zero => simp at h
    | succ i => simpa [List.set] using ih i (by simpa using h)

lemma getD_mem {α : Type} (d : α) :
    ∀ (l : List α) (i : Nat), i < l.length → l.getD i d ∈ l := by
  intro l
  induction l with
  | nil => intro i h; simp at h
  | cons x xs ih =>
    intro i h
    cases i with
    | zero => simp
    | succ i =>
      have := ih i (by simpa using h)
      simpa using Or.inr this

lemma mem_set {α : Type} (a : α) :
    ∀ (l : List α) (i : Nat) (b : α), b ∈ l.set i a → b ∈ l ∨ b = a := by
  intro l
  induction l with
  | nil => intro i b h; simp at h
  | cons x xs ih =>
    intro i b h
    cases i with
    | zero =>
      rcases (by simpa [List.set] using h : b = a ∨ b ∈ xs) with h' | h'
      · exact Or.inr h'
      · exact Or.inl (by simp [h'])
    | succ i =>
      rcases (by simpa [List.set] using h : b = x ∨ b ∈ xs.set i a) with h' | h'
      · exact Or.inl (by simp [h'])
      · rcases ih i b h' with h'' | h''
        · exact Or.inl (by simp [h''])
        · exact Or.inr h''

/-! ### Cell access on fresh and updated grids -/

lemma getCellG_replicate (R C r c : Nat) :
    getCellG (List.replicate R (List.replicate C (none : PyVal))) r c = none := by
  unfold getCellG
  rw [getD_replicate]
  split
  · rw [getD_replicate]; split <;> rfl
  · rfl

lemma Board.getCell_init (color : String) (R C : Nat) (parts : CellStyle) (r c : Nat) :
    (Board.init color R C parts).getCell r c = none :=
  getCellG_replicate R C r c

lemma Board.getCellI_natCast (b : Board) (r c : Nat) :
    b.getCellI (r : Int) (c : Int) = b.getCell r c := rfl

lemma getCellG_setCellG_ne (g : Grid) (r c : Nat) (v : PyVal) (r' c' : Nat)
    (h : r' ≠ r ∨ c' ≠ c) :
    getCellG (setCellG g r c v) r' c' = getCellG g r' c' := by
  unfold getCellG setCellG
  by_cases hr : r' = r
  · subst hr
    have hc : c' ≠ c := h.resolve_left (by simp)
    by_cases hlen : r' < g.length
    · rw [getD_set_eq _ _ _ _ hlen, getD_set_ne _ _ _ _ _ (fun he => hc he.symm)]
    · rw [set_of_length_le _ _ _ (by omega)]
  · rw [getD_set_ne _ _ _ _ _ (fun he => hr he.symm)]

lemma getCellG_setCellG_eq (g : Grid) (r c : Nat) (v : PyVal)
    (hr : r < g.length) (hc : c < (g.getD r []).length) :
    getCellG (setCellG g r c v) r c = v := by
  unfold getCellG setCellG
  rw [getD_set_eq _ _ _ _ hr, getD_set_eq _ _ _ _ hc]

/-! ### The specification's win predicate -/

/-- Direct formalisation of the specified run condition: starting at `(r, c)`
and stepping in direction `d`, all 4 cells (start + 3 steps) lie within grid
bounds and all 4 hold `piece`. -/
def specRun (b : Board) (piece : PyVal) (r c : Nat) (d : Int × Int) : Prop :=
  (∀ i : Nat, i < 4 →
      0 ≤ (r : Int) + (i : Int) * d.1 ∧ (r : Int) + (i : Int) * d.1 < (b.rows : Int) ∧
      0 ≤ (c : Int) + (i : Int) * d.2 ∧ (c : Int) + (i : Int) * d.2 < (b.columns : Int)) ∧
  (∀ i : Nat, i < 4 →
      b.getCellI ((r : Int) + (i : Int) * d.1) ((c : Int) + (i : Int) * d.2) = piece)

/-- The specification's win condition: some in-grid cell starts a qualifying
run of 4 in one of the four directions. -/
def specWin (b : Board) (piece : PyVal) : Prop :=
  ∃ r c : Nat, r < b.rows ∧ c < b.columns ∧ ∃ d ∈ directions, specRun b piece r c d

lemma check_for_win_iff (b : Board) (piece : PyVal) :
    b.check_for_win piece = true ↔ specWin b piece := by
  unfold Board.check_for_win specWin specRun
  simp only [List.any_eq_true, List.all_eq_true, List.mem_range, Bool.and_eq_true,
    decide_eq_true_eq]
  constructor
  · rintro ⟨r, hr, c, hc, hcell, d, hd, ⟨⟨⟨h1, h2⟩, h3⟩, h4⟩, hall⟩
    refine ⟨r, c, hr, hc, d, hd, ?_, fun i hi => hall i (by simpa using hi)⟩
    have hdd : d = ((0 : Int), (1 : Int)) ∨ d = (1, 0) ∨ d = (1, 1) ∨ d = (1, -1) := by
      simpa [directions] using hd
    intro i hi
    rcases hdd with h | h | h | h <;> subst h <;> simp_all <;> omega
  · rintro ⟨r, c, hr, hc, d, hd, hbnd, hcells⟩
    have hstart : b.getCell r c = piece := by
      have h0 := hcells 0 (by omega)
      simpa [Board.getCellI_natCast] using h0
    have h3 := hbnd 3 (by omega)
    refine ⟨r, hr, c, hc, hstart, d, hd, ⟨⟨⟨?_, ?_⟩, ?_⟩, ?_⟩,
      fun i hi => hcells i (by simpa using hi)⟩
    · exact_mod_cast h3.1
    · exact_mod_cast h3.2.1
    · exact_mod_cast h3.2.2.1
    · exact_mod_cast h3.2.2.2

/-! ### Concrete boards used in the examples -/

def defaultStyle : CellStyle := ⟨"+---+", "|   |", "+---+"⟩

def pX : PyVal := some "X"

def pO : PyVal := some "O"

def mkTestBoard (rows cols : Nat) (g : Grid) : Board :=
  ⟨"blue", rows, cols, defaultStyle, g⟩

/-- 4 identical tokens consecutive horizontally. -/
def bHoriz : Board := mkTestBoard 1 4 [[pX, pX, pX, pX]]

/-- 4 identical tokens consecutive vertically. -/
def bVert : Board := mkTestBoard 4 1 [[pX], [pX], [pX], [pX]]

/-- 4 identical tokens on the down-right diagonal. -/
def bDiagDR : Board :=
  mkTestBoard 4 4 [[pX, none, none, none], [none, pX, none, none],
                   [none, none, pX, none], [none, none, none, pX]]

/-- 4 identical tokens on the down-left diagonal. -/
def bDiagDL : Board :=
  mkTestBoard 4 4 [[none, none, none, pX], [none, none, pX, none],
                   [none, pX, none, none], [pX, none, none, none]]

/-- 3-in-a-row with a gap before the 4th matching token. -/
def bGap : Board := mkTestBoard 1 5 [[pX, pX, pX, none, pX]]

/-- 3-in-a-row with a mismatched token at the 4th position. -/
def bMismatch : Board := mkTestBoard 1 4 [[pX, pX, pX, pO]]

/-- C1: `check_for_win(token)` is true iff some cell starts an in-bounds run
of 4 consecutive `token` cells in one of the directions right, down,
down-right, down-left; in particular it is true for the four consecutive
placements and false for a gapped or mismatched 4th cell, and a direction
only qualifies when all 4 cells are in bounds (built into `specRun`). -/
theorem claim_C1 :
    (∀ (b : Board) (piece : PyVal), b.check_for_win piece = true ↔ specWin b piece) ∧
    bHoriz.check_for_win pX = true ∧
    bVert.check_for_win pX = true ∧
    bDiagDR.check_for_win pX = true ∧
    bDiagDL.check_for_win pX = true ∧
    bGap.check_for_win pX = false ∧
    bMismatch.check_for_win pX = false :=
  ⟨check_for_win_iff, by decide, by decide, by decide, by decide, by decide, by decide⟩

/-- Witness for C1: the iff applied at the concrete horizontal board. -/
theorem claim_C1_witness : specWin bHoriz pX :=
  (claim_C1.1 bHoriz pX).mp (by decide)

/-- C3: a freshly constructed board has every cell empty and
`check_for_win` returns false for any (player) token. -/
theorem claim_C3 :
    ∀ (color : String) (R C : Nat) (parts : CellStyle),
      (∀ r c : Nat, (Board.init color R C parts).getCell r c = none) ∧
      ∀ tok : String, (Board.init color R C parts).check_for_win (some tok) = false := by
  intro color R C parts
  refine ⟨fun r c => Board.getCell_init color R C parts r c, fun tok => ?_⟩
  cases h : (Board.init color R C parts).check_for_win (some tok) with
  | false => rfl
  | true =>
    exfalso
    obtain ⟨r, c, _, _, d, _, _, hcells⟩ := (check_for_win_iff _ _).mp h
    have h0 := hcells 0 (by omega)
    have hempty : (Board.init color R C parts).getCellI
        ((r : Int) + (0 : Nat) * d.1) ((c : Int) + (0 : Nat) * d.2) = none :=
      getCellG_replicate R C _ _
    rw [hempty] at h0
    exact Option.noConfusion h0

/-- C9: on a fresh board with at least 1 row and 4 columns,
`check_for_win` called with the empty marker `None` returns true, because
empty cells compare equal to `None` and form a qualifying run. -/
theorem claim_C9 :
    ∀ (color : String) (R C : Nat) (parts : CellStyle),
      1 ≤ R → 4 ≤ C → (Board.init color R C parts).check_for_win none = true := by
  intro color R C parts hR hC
  rw [check_for_win_iff]
  refine ⟨0, 0, by simp [Board.init]; omega, by simp [Board.init]; omega,
    (0, 1), by simp [directions], ?_, ?_⟩
  · intro i hi
    refine ⟨?_, ?_, ?_, ?_⟩ <;> simp [Board.init] <;> omega
  · intro i hi
    exact getCellG_replicate R C _ _

/-- Witness for C9 at a concrete 1×4 fresh board. -/
theorem claim_C9_witness : (Board.init "blue" 1 4 defaultStyle).check_for_win none = true :=
  claim_C9 "blue" 1 4 defaultStyle (by decide) (by decide)

/-- C4: `reset_board` empties every cell and leaves the row and column
counts unchanged, whatever the prior state. -/
theorem claim_C4 :
    ∀ b : Board,
      b.reset_board.rows = b.rows ∧ b.reset_board.columns = b.columns ∧
      ∀ r c : Nat, b.reset_board.getCell r c = none := by
  intro b
  exact ⟨rfl, rfl, fun r c => getCellG_replicate _ _ _ _⟩

/-! ### Characterisation of the drop scan -/

lemma range_reverse_succ (n : Nat) :
    (List.range (n + 1)).reverse = n :: (List.range n).reverse := by
  rw [List.range_succ, List.reverse_append, List.reverse_singleton]
  rfl

lemma drop_loop_full (g : Grid) (c : Nat) (p : PyVal) :
    ∀ n : Nat, (∀ r, r < n → getCellG g r c ≠ none) →
      drop_loop g c p ((List.range n).reverse) = (g, false) := by
  intro n
  induction n with
  | zero => intro _; rfl
  | succ n ih =>
    intro h
    rw [range_reverse_succ]
    unfold drop_loop
    rw [if_neg (h n (by omega))]
    exact ih fun r hr => h r (by omega)

lemma drop_loop_found (g : Grid) (c : Nat) (p : PyVal) :
    ∀ (n r₀ : Nat), r₀ < n → getCellG g r₀ c = none →
      (∀ r, r₀ < r → r < n → getCellG g r c ≠ none) →
      drop_loop g c p ((List.range n).reverse) = (setCellG g r₀ c p, true) := by
  intro n
  induction n with
  | zero => intro r₀ h; omega
  | succ n ih =>
    intro r₀ hr₀ hemp habove
    rw [range_reverse_succ]
    unfold drop_loop
    by_cases heq : r₀ = n
    · subst heq
      rw [if_pos hemp]
    · rw [if_neg (habove n (by omega) (by omega))]
      exact ih r₀ (by omega) hemp fun r h1 h2 => habove r h1 (by omega)

lemma exists_bottom_empty (g : Grid) (c : Nat) :
    ∀ n : Nat, (∃ r, r < n ∧ getCellG g r c = none) →
      ∃ r₀, r₀ < n ∧ getCellG g r₀ c = none ∧
        ∀ r, r₀ < r → r < n → getCellG g r c ≠ none := by
  intro n
  induction n with
  | zero => rintro ⟨r, hr, _⟩; omega
  | succ n ih =>
    rintro ⟨r, hr, hemp⟩
    by_cases hn : getCellG g n c = none
    · exact ⟨n, by omega, hn, fun r' h1 h2 => by omega⟩
    · have hrn : r < n := by
        rcases Nat.lt_succ_iff_lt_or_eq.mp hr with h | h
        · exact h
        · exact absurd (h ▸ hemp) hn
      obtain ⟨r₀, h1, h2, h3⟩ := ih ⟨r, hrn, hemp⟩
      refine ⟨r₀, by omega, h2, fun r' ha hb => ?_⟩
      rcases Nat.lt_succ_iff_lt_or_eq.mp hb with h | h
      · exact h3 r' ha h
      · exact h ▸ hn

/-! ### Single-drop characterisation -/

lemma drop_piece_out_of_range (b : Board) (col : Int) (p : PyVal)
    (h : col < 0 ∨ (b.columns : Int) ≤ col) :
    b.drop_piece col p = (b, false) := by
  unfold Board.drop_piece
  rw [if_neg (by omega)]

lemma drop_piece_full (b : Board) (col : Int) (p : PyVal)
    (h0 : 0 ≤ col) (hc : col < (b.columns : Int))
    (hfull : ∀ r, r < b.rows → b.getCell r col.toNat ≠ none) :
    b.drop_piece col p = (b, false) := by
  unfold Board.drop_piece
  rw [if_pos ⟨h0, hc⟩, drop_loop_full b.board col.toNat p b.rows hfull]

lemma drop_piece_found (b : Board) (col : Int) (p : PyVal) (r₀ : Nat)
    (h0 : 0 ≤ col) (hc : col < (b.columns : Int)) (hr₀ : r₀ < b.rows)
    (hemp : b.getCell r₀ col.toNat = none)
    (habove : ∀ r, r₀ < r → r < b.rows → b.getCell r col.toNat ≠ none) :
    b.drop_piece col p = ({ b with board := setCellG b.board r₀ col.toNat p }, true) := by
  unfold Board.drop_piece
  rw [if_pos ⟨h0, hc⟩, drop_loop_found b.board col.toNat p b.rows r₀ hr₀ hemp habove]

/-- Updating one cell (in range) preserves well-formedness. -/
lemma wf_setCellG (b : Board) (r c : Nat) (v : PyVal)
    (hwf : wf b) (hr : r < b.rows) :
    wf { b with board := setCellG b.board r c v } := by
  obtain ⟨hlen, hrows⟩ := hwf
  constructor
  · simpa [setCellG] using hlen
  · intro row hrow
    rcases mem_set ((b.board.getD r []).set c v) b.board r row hrow with h | h
    · exact hrows row h
    · rw [h, List.length_set]
      exact hrows _ (getD_mem [] b.board r (by omega))

/-! ### Iterated drops into one column -/

/-- Column `c` of `b` has exactly its topmost `k` cells empty and all cells
from row `k` down to the bottom occupied. -/
def colState (b : Board) (c k : Nat) : Prop :=
  (∀ r, r < k → b.getCell r c = none) ∧
  (∀ r, k ≤ r → r < b.rows → b.getCell r c ≠ none)

/-- `n` successive calls of `drop_piece(col, p)`, keeping the board. -/
def dropN (b : Board) (col : Int) (p : PyVal) : Nat → Board
  | 0 => b
  | n + 1 => ((dropN b col p n).drop_piece col p).1

lemma colStep (b : Board) (col : Int) (p : PyVal) (k : Nat)
    (hwf : wf b) (h0 : 0 ≤ col) (hc : col < (b.columns : Int)) (hp : p ≠ none)
    (hcs : colState b col.toNat k) (hk1 : 1 ≤ k) (hkr : k ≤ b.rows) :
    ∃ b', b.drop_piece col p = (b', true) ∧ wf b' ∧
      b'.rows = b.rows ∧ b'.columns = b.columns ∧
      colState b' col.toNat (k - 1) ∧ b'.getCell (k - 1) col.toNat = p := by
  obtain ⟨hup, hdown⟩ := hcs
  have hr₀ : k - 1 < b.rows := by omega
  have hdrop := drop_piece_found b col p (k - 1) h0 hc hr₀
    (hup _ (by omega)) (fun r h1 h2 => hdown r (by omega) h2)
  refine ⟨_, hdrop, wf_setCellG b (k - 1) col.toNat p hwf hr₀, rfl, rfl, ⟨?_, ?_⟩, ?_⟩
  · intro r hr
    have : getCellG (setCellG b.board (k - 1) col.toNat p) r col.toNat
        = getCellG b.board r col.toNat :=
      getCellG_setCellG_ne _ _ _ _ _ _ (Or.inl (by omega))
    exact this.trans (hup r (by omega))
  · intro r h1 h2
    by_cases hr : r = k - 1
    · have hlen := hwf.1
      have : getCellG (setCellG b.board (k - 1) col.toNat p) r col.toNat = p := by
        rw [hr]
        apply getCellG_setCellG_eq
        · omega
        · have := hwf.2 _ (getD_mem [] b.board (k - 1) (by omega))
          omega
      simp only [Board.getCell]
      rw [this]
      exact hp
    · have : getCellG (setCellG b.board (k - 1) col.toNat p) r col.toNat
          = getCellG b.board r col.toNat :=
        getCellG_setCellG_ne _ _ _ _ _ _ (Or.inl hr)
      simp only [Board.getCell]
      rw [this]
      exact hdown r (by omega) (by simpa using h2)
  · show getCellG (setCellG b.board (k - 1) col.toNat p) (k - 1) col.toNat = p
    have hlen := hwf.1
    apply getCellG_setCellG_eq
    · omega
    · have := hwf.2 _ (getD_mem [] b.board (k - 1) (by omega))
      omega

lemma dropN_inv (b : Board) (col : Int) (p : PyVal)
    (hwf : wf b) (h0 : 0 ≤ col) (hc : col < (b.columns : Int)) (hp : p ≠ none)
    (hcs : colState b col.toNat b.rows) :
    ∀ n, n ≤ b.rows →
      wf (dropN b col p n) ∧ (dropN b col p n).rows = b.rows ∧
      (dropN b col p n).columns = b.columns ∧
      colState (dropN b col p n) col.toNat (b.rows - n) := by
  intro n
  induction n with
  | zero => intro _; exact ⟨hwf, rfl, rfl, by simpa using hcs⟩
  | succ n ih =>
    intro hn
    obtain ⟨ihwf, ihr, ihc, ihcs⟩ := ih (by omega)
    obtain ⟨b', hstep, hwf', hrows', hcols', hcs', _⟩ :=
      colStep (dropN b col p n) col p (b.rows - n) ihwf h0 (by rw [ihc]; exact hc) hp
        ihcs (by omega) (by rw [ihr]; omega)
    have hN : dropN b col p (n + 1) = b' := by
      unfold dropN
      rw [hstep]
    rw [hN]
    exact ⟨hwf', hrows'.trans ihr, hcols'.trans ihc, by
      have : b.rows - (n + 1) = b.rows - n - 1 := by omega
      rw [this]
      exact hcs'⟩

/-- C2: `drop_piece` fails without mutation on an out-of-range or full
column; otherwise it places the token in the bottommost empty cell of the
column, mutates exactly that cell, and returns true; on an initially empty
column of height `H` the `N`-th successful drop lands in row `H - N`
(that is, `H-1-(N-1)`) and the `(H+1)`-th drop fails without mutation. -/
theorem claim_C2 :
    (∀ (b : Board) (col : Int) (p : PyVal),
        col < 0 ∨ (b.columns : Int) ≤ col → b.drop_piece col p = (b, false)) ∧
    (∀ (b : Board) (col : Int) (p : PyVal),
        0 ≤ col → col < (b.columns : Int) →
        (∀ r, r < b.rows → b.getCell r col.toNat ≠ none) →
        b.drop_piece col p = (b, false)) ∧
    (∀ (b : Board) (col : Int) (p : PyVal),
        wf b → 0 ≤ col → col < (b.columns : Int) →
        (∃ r, r < b.rows ∧ b.getCell r col.toNat = none) →
        ∃ r₀, r₀ < b.rows ∧ b.getCell r₀ col.toNat = none ∧
          (∀ r, r₀ < r → r < b.rows → b.getCell r col.toNat ≠ none) ∧
          (b.drop_piece col p).2 = true ∧
          (b.drop_piece col p).1.getCell r₀ col.toNat = p ∧
          (∀ r c : Nat, r ≠ r₀ ∨ c ≠ col.toNat →
            (b.drop_piece col p).1.getCell r c = b.getCell r c) ∧
          (b.drop_piece col p).1.rows = b.rows ∧
          (b.drop_piece col p).1.columns = b.columns) ∧
    (∀ (b : Board) (col : Int) (p : PyVal),
        wf b → 0 ≤ col → col < (b.columns : Int) → p ≠ none →
        colState b col.toNat b.rows →
        (∀ N, 1 ≤ N → N ≤ b.rows →
          ((dropN b col p (N - 1)).drop_piece col p).2 = true ∧
          (dropN b col p N).getCell (b.rows - N) col.toNat = p) ∧
        (dropN b col p b.rows).drop_piece col p = (dropN b col p b.rows, false)) := by
  refine ⟨drop_piece_out_of_range, drop_piece_full, ?_, ?_⟩
  · intro b col p hwf h0 hc hex
    obtain ⟨r₀, hr₀, hemp, habove⟩ := exists_bottom_empty b.board col.toNat b.rows hex
    have hdrop := drop_piece_found b col p r₀ h0 hc hr₀ hemp habove
    refine ⟨r₀, hr₀, hemp, habove, by rw [hdrop], ?_, ?_, by rw [hdrop], by rw [hdrop]⟩
    · rw [hdrop]
      show getCellG (setCellG b.board r₀ col.toNat p) r₀ col.toNat = p
      have hlen := hwf.1
      apply getCellG_setCellG_eq
      · omega
      · have := hwf.2 _ (getD_mem [] b.board r₀ (by omega))
        omega
    · intro r c hne
      rw [hdrop]
      exact getCellG_setCellG_ne _ _ _ _ _ _ hne
  · intro b col p hwf h0 hc hp hcs
    constructor
    · intro N h1 hN
      obtain ⟨ihwf, ihr, ihc, ihcs⟩ := dropN_inv b col p hwf h0 hc hp hcs (N - 1) (by omega)
      obtain ⟨b', hstep, _, _, _, _, hcell⟩ :=
        colStep (dropN b col p (N - 1)) col p (b.rows - (N - 1)) ihwf h0
          (by rw [ihc]; exact hc) hp ihcs (by omega) (by rw [ihr]; omega)
      have hNn : dropN b col p N = b' := by
        have : N = (N - 1) + 1 := by omega
        rw [this]
        unfold dropN
        rw [hstep]
      refine ⟨by rw [hstep], ?_⟩
      rw [hNn]
      have : b.rows - (N - 1) - 1 = b.rows - N := by omega
      rwa [this] at hcell
    · obtain ⟨ihwf, ihr, ihc, ihcs⟩ := dropN_inv b col p hwf h0 hc hp hcs b.rows le_rfl
      apply drop_piece_full _ _ _ h0 (by rw [ihc]; exact hc)
      intro r hr
      exact ihcs.2 r (by omega) hr

/-- Witness for C2: an out-of-range drop on a concrete board fails and
leaves the board unchanged. -/
theorem claim_C2_witness :
    (Board.init "blue" 6 7 defaultStyle).drop_piece (-1) pX
      = (Board.init "blue" 6 7 defaultStyle, false) :=
  claim_C2.1 _ _ _ (Or.inl (by decide))

/-! ### The gravity invariant over reachable boards -/

/-- Boards reachable from construction by any sequence of `drop_piece` and
`reset_board` calls. -/
inductive Reachable : Board → Prop
  | init : ∀ (color : String) (rows columns : Nat) (parts : CellStyle),
      Reachable (Board.init color rows columns parts)
  | drop : ∀ (b : Board) (col : Int) (p : PyVal),
      Reachable b → Reachable (b.drop_piece col p).1
  | reset : ∀ b : Board, Reachable b → Reachable b.reset_board

/-- In every column the occupied cells are contiguous at the bottom: any
cell below an occupied cell (within the grid) is occupied. -/
def gravity (b : Board) : Prop :=
  ∀ c r r' : Nat, r < r' → r' < b.rows → b.getCell r c ≠ none → b.getCell r' c ≠ none

lemma wf_init (color : String) (rows columns : Nat) (parts : CellStyle) :
    wf (Board.init color rows columns parts) := by
  constructor
  · simp [Board.init]
  · intro row hrow
    have : row = List.replicate columns none := by
      simpa [Board.init] using List.eq_of_mem_replicate hrow
    rw [this]
    simp [Board.init]

lemma gravity_setCellG (b : Board) (cN r₀ : Nat) (p : PyVal)
    (hgrav : gravity b) (hr₀ : r₀ < b.rows) (hemp : b.getCell r₀ cN = none)
    (habove : ∀ r, r₀ < r → r < b.rows → b.getCell r cN ≠ none) :
    gravity { b with board := setCellG b.board r₀ cN p } := by
  intro c r r' hlt hr' hocc
  have hr'b : r' < b.rows := hr'
  show getCellG (setCellG b.board r₀ cN p) r' c ≠ none
  have hocc' : getCellG (setCellG b.board r₀ cN p) r c ≠ none := hocc
  by_cases hc : c = cN
  · subst hc
    by_cases hre : r = r₀
    · by_cases hr'e : r' = r₀
      · exfalso; omega
      · rw [getCellG_setCellG_ne _ _ _ _ _ _ (Or.inl hr'e)]
        exact habove r' (by omega) hr'b
    · have hocc'' : getCellG b.board r c ≠ none := by
        rwa [getCellG_setCellG_ne _ _ _ _ _ _ (Or.inl hre)] at hocc'
      by_cases hr'e : r' = r₀
      · exfalso
        exact hgrav c r r₀ (by omega) hr₀ hocc'' hemp
      · rw [getCellG_setCellG_ne _ _ _ _ _ _ (Or.inl hr'e)]
        exact hgrav c r r' hlt hr'b hocc''
  · have hocc'' : getCellG b.board r c ≠ none := by
      rwa [getCellG_setCellG_ne _ _ _ _ _ _ (Or.inr hc)] at hocc'
    rw [getCellG_setCellG_ne _ _ _ _ _ _ (Or.inr hc)]
    exact hgrav c r r' hlt hr'b hocc''

lemma reachable_wf_gravity : ∀ b : Board, Reachable b → wf b ∧ gravity b := by
  intro b h
  induction h with
  | init color rows columns parts =>
    refine ⟨wf_init color rows columns parts, ?_⟩
    intro c r r' _ _ hocc
    exact absurd (Board.getCell_init color rows columns parts r c) hocc
  | drop b col p _ ih =>
    obtain ⟨hwf, hgrav⟩ := ih
    by_cases hin : 0 ≤ col ∧ col < (b.columns : Int)
    · by_cases hex : ∃ r, r < b.rows ∧ b.getCell r col.toNat = none
      · obtain ⟨r₀, hr₀, hemp, habove⟩ := exists_bottom_empty b.board col.toNat b.rows hex
        rw [drop_piece_found b col p r₀ hin.1 hin.2 hr₀ hemp habove]
        exact ⟨wf_setCellG b r₀ col.toNat p hwf hr₀,
          gravity_setCellG b col.toNat r₀ p hgrav hr₀ hemp habove⟩
      · push_neg at hex
        rw [drop_piece_full b col p hin.1 hin.2 fun r hr => hex r hr]
        exact ⟨hwf, hgrav⟩
    · rw [drop_piece_out_of_range b col p (by omega)]
      exact ⟨hwf, hgrav⟩
  | reset b _ ih =>
    constructor
    · constructor
      · simp [Board.reset_board]
      · intro row hrow
        have : row = List.replicate b.columns none := by
          simpa [Board.reset_board] using List.eq_of_mem_replicate hrow
        rw [this]
        simp [Board.reset_board]
    · intro c r r' _ _ hocc
      exact absurd (getCellG_replicate b.rows b.columns r c) hocc

/-- C10: every board reachable from construction by `drop_piece` and
`reset_board` calls satisfies the gravity invariant: occupied cells in each
column are contiguous at the bottom. -/
theorem claim_C10 : ∀ b : Board, Reachable b → gravity b :=
  fun b h => (reachable_wf_gravity b h).2

/-- Witness for C10: a concrete reachable board (one drop on a fresh board)
satisfies the gravity invariant. -/
theorem claim_C10_witness :
    gravity ((Board.init "blue" 6 7 defaultStyle).drop_piece 0 pX).1 :=
  claim_C10 _ (Reachable.drop _ 0 pX (Reachable.init "blue" 6 7 defaultStyle))

/-! ### The game loop of main.py -/

/-- The mutable state of the turn loop in main.py: the board, the current
player number, the current player's piece, and the `game_is_on` flag. -/
structure GameState where
  board : Board
  currentPlayer : Nat
  currentPiece : PyVal
  gameIsOn : Bool
deriving DecidableEq, Repr

/-- One iteration of the `while game_is_on:` body of main.py for a numeric
input: `choice = int(input(...)) - 1`; if `drop_piece` succeeds the active
player and piece switch, otherwise the state is unchanged.  Nothing else is
updated — in particular no victory check is performed (main.py only carries
the comment "A VICTORY CHECK WOULD GO HERE IN THE FUTURE"). -/
def main_step (pieceOne pieceTwo : PyVal) (s : GameState) (userInput : Int) : GameState :=
  let choice : Int := userInput - 1
  let res := s.board.drop_piece choice s.currentPiece
  if res.2 then
    if s.currentPlayer = 1 then
      { board := res.1, currentPlayer := 2, currentPiece := pieceTwo, gameIsOn := s.gameIsOn }
    else
      { board := res.1, currentPlayer := 1, currentPiece := pieceOne, gameIsOn := s.gameIsOn }
  else
    { s with board := res.1 }

/-- The state right after `input("Press enter to start")`. -/
def initState (b : Board) (pieceOne : PyVal) : GameState :=
  { board := b, currentPlayer := 1, currentPiece := pieceOne, gameIsOn := true }

/-- Running the loop over a list of numeric user inputs. -/
def run_inputs (pieceOne pieceTwo : PyVal) (s : GameState) (inputs : List Int) : GameState :=
  inputs.foldl (main_step pieceOne pieceTwo) s

/-- Counterexample to C8 as stated: playing columns 1,7,1,7,1,7,1 from a
fresh 6×7 board gives player 1 a vertical four-in-a-row, yet the loop state
after that winning drop has `game_is_on` still true and play simply passed
to player 2 — the caller never evaluated the win predicate. -/
theorem claim_C8_counterexample :
    (run_inputs pX pO (initState (Board.init "blue" 6 7 defaultStyle) pX)
        [1, 7, 1, 7, 1, 7, 1]).board.check_for_win pX = true ∧
    (run_inputs pX pO (initState (Board.init "blue" 6 7 defaultStyle) pX)
        [1, 7, 1, 7, 1, 7, 1]).gameIsOn = true ∧
    (run_inputs pX pO (initState (Board.init "blue" 6 7 defaultStyle) pX)
        [1, 7, 1, 7, 1, 7, 1]).currentPlayer = 2 := by
  refine ⟨by decide, by decide, by decide⟩

/-- C8 (amended): win state is not tracked anywhere — the loop body never
changes `game_is_on` and its board is exactly the `drop_piece` result, and
`check_for_win` is a pure function of the grid and dimensions alone — but
the game loop itself does not evaluate the win predicate after drops. -/
theorem claim_C8 :
    (∀ (p1 p2 : PyVal) (s : GameState) (u : Int),
        (main_step p1 p2 s u).gameIsOn = s.gameIsOn ∧
        (main_step p1 p2 s u).board = (s.board.drop_piece (u - 1) s.currentPiece).1) ∧
    (∀ (b1 b2 : Board) (piece : PyVal),
        b1.rows = b2.rows → b1.columns = b2.columns → b1.board = b2.board →
        b1.check_for_win piece = b2.check_for_win piece) := by
  constructor
  · intro p1 p2 s u
    constructor <;>
      · simp only [main_step]
        split
        · split <;> rfl
        · rfl
  · intro b1 b2 piece h1 h2 h3
    cases b1 with
    | mk c1 r1 co1 pa1 g1 =>
      cases b2 with
      | mk c2 r2 co2 pa2 g2 =>
        dsimp only at h1 h2 h3
        subst h1
        subst h2
        subst h3
        rfl

/-- Witness for C8: `check_for_win` agrees across two boards differing only
in color and style. -/
theorem claim_C8_witness :
    (Board.init "blue" 1 1 defaultStyle).check_for_win none
      = (Board.init "red" 1 1 ⟨"a", "b", "c"⟩).check_for_win none :=
  claim_C8.2 _ _ none rfl rfl rfl

/-! ### The renderer's mid line -/

/-- `str(c) if c is not None else " "`: a cell's display string. -/
def tokStr : PyVal → String
  | some s => s
  | none => " "

/-- Python slice `s[:n]`. -/
def strTake (s : String) (n : Nat) : String := ⟨s.data.take n⟩

/-- Python slice `s[n:]`. -/
def strDrop (s : String) (n : Nat) : String := ⟨s.data.drop n⟩

/-- One cell of the middle line:
`mid_part[:center_idx] + (str(c) if c is not None else " ") + mid_part[center_idx + 1:]`
with `center_idx = len(mid_part) // 2`. -/
def render_mid_cell (mid : String) (c : PyVal) : String :=
  strTake mid (mid.length / 2) ++ tokStr c ++ strDrop mid (mid.length / 2 + 1)

/-- The row label `f"{r:>{row_label_width}}: "`. -/
def row_label (rows r : Nat) : String :=
  ⟨List.replicate ((toString (rows - 1)).length - (toString r).length) ' '⟩ ++ toString r ++ ": "

/-- The full middle line printed for logical row `r`:
`row_label + " ".join(rendered_mids)`. -/
def render_mid_line (b : Board) (r : Nat) : String :=
  row_label b.rows r ++
    String.intercalate " " ((b.board.getD r []).map (render_mid_cell b.parts.mid))

/-- Modelled from the spec's words: `s` with exactly the one character at
index `i` replaced by the string `t`. -/
def replaceCharAt (s : String) (i : Nat) (t : String) : String :=
  ⟨s.data.take i ++ t.data ++ s.data.drop (i + 1)⟩

lemma data_append (s t : String) : (s ++ t).data = s.data ++ t.data := by
  cases s
  cases t
  rfl

lemma take_append_left {α : Type} (a b : List α) (n : Nat) (h : a.length = n) :
    (a ++ b).take n = a := by
  subst h
  exact List.take_left a b

lemma drop_append_left {α : Type} (a b : List α) (n : Nat) (h : a.length = n) :
    (a ++ b).drop n = b := by
  subst h
  exact List.drop_left a b

lemma render_mid_cell_data (mid : String) (cell : PyVal) :
    (render_mid_cell mid cell).data
      = mid.data.take (mid.length / 2) ++ (tokStr cell).data
          ++ mid.data.drop (mid.length / 2 + 1) := by
  unfold render_mid_cell
  rw [data_append, data_append]
  rfl

/-- C5: the rendered mid line of a cell is the mid glyph with exactly the
one character at index `len(mid) // 2` replaced by the token's string form
(a single blank for an empty cell), whatever the token string's length: the
result agrees with the spec-side `replaceCharAt`, its length changes by
`token length - 1`, the glyph prefix below the center index and the suffix
above it are preserved, and the token appears verbatim at the center. -/
theorem claim_C5 :
    ∀ (mid : String) (cell : PyVal), 0 < mid.length →
      render_mid_cell mid cell = replaceCharAt mid (mid.length / 2) (tokStr cell) ∧
      (render_mid_cell mid cell).length = mid.length - 1 + (tokStr cell).length ∧
      (render_mid_cell mid cell).data.take (mid.length / 2)
        = mid.data.take (mid.length / 2) ∧
      (render_mid_cell mid cell).data.drop (mid.length / 2 + (tokStr cell).length)
        = mid.data.drop (mid.length / 2 + 1) ∧
      ((render_mid_cell mid cell).data.drop (mid.length / 2)).take (tokStr cell).length
        = (tokStr cell).data ∧
      tokStr none = " " := by
  intro mid cell h
  have hk : mid.length / 2 < mid.length := Nat.div_lt_self h (by omega)
  have hdatalen : mid.data.length = mid.length := rfl
  have htok : (tokStr cell).data.length = (tokStr cell).length := rfl
  refine ⟨?_, ?_, ?_, ?_, ?_, rfl⟩
  · apply String.ext
    rw [render_mid_cell_data]
    rfl
  · show (render_mid_cell mid cell).data.length = _
    rw [render_mid_cell_data]
    simp only [List.length_append, List.length_take, List.length_drop, hdatalen, htok]
    omega
  · rw [render_mid_cell_data, List.append_assoc]
    exact take_append_left _ _ _ (by simp only [List.length_take, hdatalen]; omega)
  · rw [render_mid_cell_data]
    exact drop_append_left _ _ _
      (by simp only [List.length_append, List.length_take, hdatalen, htok]; omega)
  · rw [render_mid_cell_data, List.append_assoc,
      drop_append_left _ _ _ (by simp only [List.length_take, hdatalen]; omega)]
    exact take_append_left _ _ _ rfl

/-- Witness for C5 at a concrete 3-character mid glyph and a 2-character
token. -/
theorem claim_C5_witness :
    render_mid_cell "| |" (some "XY")
      = replaceCharAt "| |" (("| |" : String).length / 2) (tokStr (some "XY")) :=
  (claim_C5 "| |" (some "XY") (by decide)).1

/-! ### Style configuration loading (Board.py `_load_cell_styles`,
Piece.py `_load_piece_styles`)

The JSON files themselves live outside the repository's source; a parsed
file is modelled as its stem plus the root object's entries in file order.
A root entry's value is either a JSON string or a flat object of strings
(the shapes the loaders consume). -/

/-- A JSON value as consumed by the loaders. -/
inductive JVal where
  | jstr : String → JVal
  | jobj : List (String × String) → JVal
deriving DecidableEq, Repr

/-- A stored style record, `{k: ... for k in required}`. -/
abbrev StyleRec := List (String × JVal)

/-- The aggregated `style_map`. -/
abbrev StyleMap := List (String × StyleRec)

/-- A parsed `*.json` file: its stem and the root object's entries. -/
structure StyleFile where
  stem : String
  data : List (String × JVal)
deriving DecidableEq, Repr

/-- The fatal loader errors, in structured form. -/
inductive LoadError where
  | duplicate (styleName fileName : String)
  | missingKeys (styleName fileName : String) (missing : List String)
  | attrError (fileName : String)
  | noDefault
deriving DecidableEq, Repr

def hasKeyJ (entries : List (String × JVal)) (k : String) : Bool :=
  entries.any fun e => decide (e.1 = k)

def lookupJ (entries : List (String × JVal)) (k : String) : Option JVal :=
  (entries.find? fun e => decide (e.1 = k)).map Prod.snd

def hasKeyS (m : StyleMap) (k : String) : Bool :=
  m.any fun e => decide (e.1 = k)

def hasKeyF (fields : List (String × String)) (k : String) : Bool :=
  fields.any fun e => decide (e.1 = k)

def lookupF (fields : List (String × String)) (k : String) : Option String :=
  (fields.find? fun e => decide (e.1 = k)).map Prod.snd

/-- Case B of the loaders: `for style_name, parts in data.items(): ...`.
Duplicates are rejected first, then `parts.keys()` (an `AttributeError` if
`parts` is a plain string), then the missing required keys. -/
def load_entries (req : List String) (fileName : String) (m : StyleMap) :
    List (String × JVal) → Except LoadError StyleMap
  | [] => .ok m
  | (name, .jstr _) :: _ =>
      if hasKeyS m name then .error (.duplicate name fileName)
      else .error (.attrError fileName)
  | (name, .jobj fields) :: es =>
      if hasKeyS m name then .error (.duplicate name fileName)
      else if (req.filter fun k => !(hasKeyF fields k)).isEmpty then
        load_entries req fileName
          (m ++ [(name, req.map fun k => (k, JVal.jstr ((lookupF fields k).getD "")))]) es
      else .error (.missingKeys name fileName (req.filter fun k => !(hasKeyF fields k)))

/-- Processing one file: Case A when the root holds all required keys
(style named by the file's stem), otherwise Case B over the root entries. -/
def load_file (req : List String) (m : StyleMap) (f : StyleFile) :
    Except LoadError StyleMap :=
  if req.all (fun k => hasKeyJ f.data k) then
    if hasKeyS m f.stem then .error (.duplicate f.stem (f.stem ++ ".json"))
    else .ok (m ++ [(f.stem, req.map fun k => (k, (lookupJ f.data k).getD (JVal.jstr "")))])
  else load_entries req (f.stem ++ ".json") m f.data

/-- The `for fp in directory.glob("*.json")` loop. -/
def load_files (req : List String) (m : StyleMap) : List StyleFile → Except LoadError StyleMap
  | [] => .ok m
  | f :: fs =>
      match load_file req m f with
      | .error e => .error e
      | .ok m' => load_files req m' fs

/-- The common shape of `_load_cell_styles` / `_load_piece_styles` on an
already-parsed directory listing: scan all files, then require a style
named "default". -/
def load_styles (req : List String) (files : List StyleFile) : Except LoadError StyleMap :=
  match load_files req [] files with
  | .error e => .error e
  | .ok m => if hasKeyS m "default" then .ok m else .error .noDefault

/-- `_load_cell_styles`: required keys top, mid, bottom. -/
def load_cell_styles (files : List StyleFile) : Except LoadError StyleMap :=
  load_styles ["top", "mid", "bottom"] files

/-- `_load_piece_styles`: required keys one, two. -/
def load_piece_styles (files : List StyleFile) : Except LoadError StyleMap :=
  load_styles ["one", "two"] files

def isOk {ε α : Type} : Except ε α → Bool
  | .ok _ => true
  | .error _ => false

/-- The style names a file defines: the stem in Case A, the root keys in
Case B. -/
def file_style_names (req : List String) (f : StyleFile) : List String :=
  if req.all (fun k => hasKeyJ f.data k) then [f.stem] else f.data.map Prod.fst

/-- All style names defined across a directory listing, in scan order. -/
def defined_style_names (req : List String) (files : List StyleFile) : List String :=
  (files.map (file_style_names req)).flatten

lemma hasKeyS_eq_false {m : StyleMap} {k : String} (h : ¬ hasKeyS m k = true) :
    k ∉ m.map Prod.fst := by
  intro hk
  apply h
  unfold hasKeyS
  rw [List.any_eq_true]
  obtain ⟨e, he, hfst⟩ := List.mem_map.mp hk
  exact ⟨e, he, by simp [hfst]⟩

lemma nodup_append_singleton {l : List String} {k : String}
    (hnd : l.Nodup) (hk : k ∉ l) : (l ++ [k]).Nodup := by
  rw [List.nodup_append]
  refine ⟨hnd, by simp, ?_⟩
  intro a ha hb
  rw [List.mem_singleton] at hb
  exact hk (hb ▸ ha)

lemma load_entries_ok (req : List String) (fn : String) :
    ∀ (es : List (String × JVal)) (m m' : StyleMap),
      load_entries req fn m es = .ok m' →
      m'.map Prod.fst = m.map Prod.fst ++ es.map Prod.fst ∧
      ((m.map Prod.fst).Nodup → (m'.map Prod.fst).Nodup) := by
  intro es
  induction es with
  | nil =>
    intro m m' h
    unfold load_entries at h
    injection h with h
    subst h
    simp
  | cons e es ih =>
    intro m m' h
    obtain ⟨name, v⟩ := e
    cases v with
    | jstr s =>
      unfold load_entries at h
      split at h <;> exact absurd h (by simp)
    | jobj fields =>
      unfold load_entries at h
      by_cases hdup : hasKeyS m name = true
      · rw [if_pos hdup] at h
        exact absurd h (by simp)
      · rw [if_neg hdup] at h
        by_cases hmiss : (req.filter fun k => !(hasKeyF fields k)).isEmpty = true
        · rw [if_pos hmiss] at h
          obtain ⟨h1, h2⟩ := ih _ m' h
          constructor
          · rw [h1]
            simp [List.append_assoc]
          · intro hnd
            apply h2
            rw [List.map_append]
            exact nodup_append_singleton hnd (hasKeyS_eq_false hdup)
        · rw [if_neg hmiss] at h
          exact absurd h (by simp)

lemma load_file_ok (req : List String) (m m₂ : StyleMap) (f : StyleFile)
    (h : load_file req m f = .ok m₂) :
    m₂.map Prod.fst = m.map Prod.fst ++ file_style_names req f ∧
    ((m.map Prod.fst).Nodup → (m₂.map Prod.fst).Nodup) := by
  unfold load_file at h
  unfold file_style_names
  by_cases hA : (req.all fun k => hasKeyJ f.data k) = true
  · rw [if_pos hA] at h
    rw [if_pos hA]
    by_cases hdup : hasKeyS m f.stem = true
    · rw [if_pos hdup] at h
      exact absurd h (by simp)
    · rw [if_neg hdup] at h
      injection h with h
      subst h
      constructor
      · simp
      · intro hnd
        rw [List.map_append]
        exact nodup_append_singleton hnd (hasKeyS_eq_false hdup)
  · rw [if_neg hA] at h
    rw [if_neg hA]
    exact load_entries_ok req _ f.data m m₂ h

lemma load_files_ok (req : List String) :
    ∀ (fs : List StyleFile) (m m' : StyleMap),
      load_files req m fs = .ok m' →
      m'.map Prod.fst = m.map Prod.fst ++ defined_style_names req fs ∧
      ((m.map Prod.fst).Nodup → (m'.map Prod.fst).Nodup) := by
  intro fs
  induction fs with
  | nil =>
    intro m m' h
    unfold load_files at h
    injection h with h
    subst h
    simp [defined_style_names]
  | cons f fs ih =>
    intro m m' h
    unfold load_files at h
    cases hlf : load_file req m f with
    | error e => rw [hlf] at h; exact absurd h (by simp)
    | ok m₂ =>
      rw [hlf] at h
      obtain ⟨k1, n1⟩ := load_file_ok req m m₂ f hlf
      obtain ⟨k2, n2⟩ := ih m₂ m' h
      constructor
      · rw [k2, k1]
        simp [defined_style_names, List.append_assoc]
      · exact fun hnd => n2 (n1 hnd)

lemma load_files_mem (req : List String) :
    ∀ (fs : List StyleFile) (m m' : StyleMap),
      load_files req m fs = .ok m' →
      ∀ f ∈ fs, ∃ m₀ m₁, load_file req m₀ f = .ok m₁ := by
  intro fs
  induction fs with
  | nil => intro m m' _ f hf; simp at hf
  | cons g fs ih =>
    intro m m' h f hf
    unfold load_files at h
    cases hlf : load_file req m g with
    | error e => rw [hlf] at h; exact absurd h (by simp)
    | ok m₂ =>
      rw [hlf] at h
      rcases List.mem_cons.mp hf with he | he
      · exact ⟨m, m₂, he ▸ hlf⟩
      · exact ih m₂ m' h f he

lemma load_entries_mem (req : List String) (fn : String) :
    ∀ (es : List (String × JVal)) (m m' : StyleMap),
      load_entries req fn m es = .ok m' →
      ∀ e ∈ es, ∃ fields, e.2 = JVal.jobj fields ∧
        (req.filter fun k => !(hasKeyF fields k)) = [] := by
  intro es
  induction es with
  | nil => intro m m' _ e he; simp at he
  | cons e0 es ih =>
    intro m m' h e he
    obtain ⟨name, v⟩ := e0
    cases v with
    | jstr s =>
      unfold load_entries at h
      split at h <;> exact absurd h (by simp)
    | jobj fields =>
      unfold load_entries at h
      by_cases hdup : hasKeyS m name = true
      · rw [if_pos hdup] at h
        exact absurd h (by simp)
      · rw [if_neg hdup] at h
        by_cases hmiss : (req.filter fun k => !(hasKeyF fields k)).isEmpty = true
        · rw [if_pos hmiss] at h
          rcases List.mem_cons.mp he with he' | he'
          · exact ⟨fields, by rw [he'], by rwa [List.isEmpty_iff] at hmiss⟩
          · exact ih _ m' h e he'
        · rw [if_neg hmiss] at h
          exact absurd h (by simp)

/-- C6: style loading fails whenever any style name is defined twice (in
particular across files), fails naming the missing keys when a bundled
record lacks a required key, fails when no style named "default" is defined
anywhere, and succeeds on a single file defining only "default" with all
required keys — for the cell loader (top/mid/bottom) and the piece loader
(one/two) alike. -/
theorem claim_C6 :
    (∀ (req : List String) (files : List StyleFile),
        ¬ (defined_style_names req files).Nodup →
        isOk (load_styles req files) = false) ∧
    (∀ (req : List String) (files : List StyleFile) (f : StyleFile) (name : String)
        (fields : List (String × String)),
        f ∈ files → (name, JVal.jobj fields) ∈ f.data →
        ¬ (req.all fun k => hasKeyJ f.data k) = true →
        (req.filter fun k => !(hasKeyF fields k)) ≠ [] →
        isOk (load_styles req files) = false) ∧
    (∀ (req : List String) (files : List StyleFile),
        "default" ∉ defined_style_names req files →
        isOk (load_styles req files) = false) ∧
    load_cell_styles
        [⟨"cells", [("default", JVal.jobj [("top", "T"), ("mid", "M"), ("bottom", "B")])]⟩]
      = .ok [("default", [("top", JVal.jstr "T"), ("mid", JVal.jstr "M"),
          ("bottom", JVal.jstr "B")])] ∧
    load_piece_styles [⟨"pieces", [("default", JVal.jobj [("one", "X"), ("two", "O")])]⟩]
      = .ok [("default", [("one", JVal.jstr "X"), ("two", JVal.jstr "O")])] ∧
    load_cell_styles [⟨"broken", [("x", JVal.jobj [("top", "T"), ("mid", "M")])]⟩]
      = .error (.missingKeys "x" "broken.json" ["bottom"]) := by
  refine ⟨?_, ?_, ?_, by rfl, by rfl, by rfl⟩
  · intro req files hnd
    cases hres : load_files req [] files with
    | error e => simp [load_styles, isOk, hres]
    | ok m =>
      obtain ⟨hkeys, hndup⟩ := load_files_ok req files [] m hres
      have h2 := hndup (by simp)
      rw [hkeys] at h2
      simp only [List.map_nil, List.nil_append] at h2
      exact absurd h2 hnd
  · intro req files f name fields hf hmem hA hmiss
    cases hres : load_files req [] files with
    | error e => simp [load_styles, isOk, hres]
    | ok m =>
      exfalso
      obtain ⟨m₀, m₁, hok⟩ := load_files_mem req files [] m hres f hf
      unfold load_file at hok
      rw [if_neg hA] at hok
      obtain ⟨fields', hfe, hfm⟩ :=
        load_entries_mem req _ f.data m₀ m₁ hok (name, JVal.jobj fields) hmem
      have : fields = fields' := by
        simpa using hfe
      exact hmiss (this ▸ hfm)
  · intro req files hnodef
    cases hres : load_files req [] files with
    | error e => simp [load_styles, isOk, hres]
    | ok m =>
      by_cases hdef : hasKeyS m "default" = true
      · exfalso
        obtain ⟨hkeys, _⟩ := load_files_ok req files [] m hres
        have hmem : "default" ∈ m.map Prod.fst := by
          unfold hasKeyS at hdef
          rw [List.any_eq_true] at hdef
          obtain ⟨e, he, heq⟩ := hdef
          exact List.mem_map.mpr ⟨e, he, by simpa using heq⟩
        rw [hkeys] at hmem
        simp only [List.map_nil, List.nil_append] at hmem
        exact hnodef hmem
      · simp [load_styles, isOk, hres, hdef]

def dupFileA : StyleFile :=
  ⟨"a", [("x", JVal.jobj [("top", "T"), ("mid", "M"), ("bottom", "B")])]⟩

def dupFileB : StyleFile :=
  ⟨"b", [("x", JVal.jobj [("top", "T"), ("mid", "M"), ("bottom", "B")])]⟩

/-- Witness for C6: two files both defining style "x" make the cell loader
fail. -/
theorem claim_C6_witness : isOk (load_cell_styles [dupFileA, dupFileB]) = false :=
  claim_C6.1 ["top", "mid", "bottom"] [dupFileA, dupFileB] (by decide)

/-! ### Hot reload (Board.py `reload_styles`, Piece.py `reload_piece_styles`) -/

/-- `reload_styles`: `global _STYLE_MAP; _STYLE_MAP = _load_cell_styles()`.
Embedding of that single assignment under Python exception semantics: the
right-hand side is evaluated first, and if it raises, the exception
propagates before the assignment executes, so the global keeps its old
value.  Returns the new global together with the propagated error, if any. -/
def reload_styles (files : List StyleFile) (current : StyleMap) :
    StyleMap × Option LoadError :=
  match load_cell_styles files with
  | .ok m => (m, none)
  | .error e => (current, some e)

/-- `reload_piece_styles`: same embedding for `_PIECE_STYLE_MAP`. -/
def reload_piece_styles (files : List StyleFile) (current : StyleMap) :
    StyleMap × Option LoadError :=
  match load_piece_styles files with
  | .ok m => (m, none)
  | .error e => (current, some e)

/-- C7: a reload whose re-scan fails leaves the previously-loaded live
style map intact and unchanged (and a successful reload replaces it
wholesale) — for the cell styles and the piece styles alike. -/
theorem claim_C7 :
    (∀ (files : List StyleFile) (current : StyleMap) (e : LoadError),
        load_cell_styles files = .error e →
        reload_styles files current = (current, some e)) ∧
    (∀ (files : List StyleFile) (current m : StyleMap),
        load_cell_styles files = .ok m →
        reload_styles files current = (m, none)) ∧
    (∀ (files : List StyleFile) (current : StyleMap) (e : LoadError),
        load_piece_styles files = .error e →
        reload_piece_styles files current = (current, some e)) ∧
    (∀ (files : List StyleFile) (current m : StyleMap),
        load_piece_styles files = .ok m →
        reload_piece_styles files current = (m, none)) := by
  refine ⟨?_, ?_, ?_, ?_⟩ <;>
    · intro files current x h
      simp [reload_styles, reload_piece_styles, h]

/-- Witness for C7: reloading from an empty directory (no "default") fails
and leaves a concrete live map untouched. -/
theorem claim_C7_witness :
    reload_styles [] [("default", [("top", JVal.jstr "T")])]
      = ([("default", [("top", JVal.jstr "T")])], some LoadError.noDefault) :=
  claim_C7.1 [] [("default", [("top", JVal.jstr "T")])] LoadError.noDefault (by rfl)

end PyLig4
